import Mathlib

/-!
Verification of the prototype spawner (`evennia/utils/spawner.py`).

The spawner resolves inheritable "prototype" dictionaries into flattened
records and turns each into a creation instruction for the external object
store.  This file gives a shallow embedding of the module's core functions:

* `validate`      embeds `_validate_prototype` (cycle / parent validation),
* `getPrototype`  embeds `_get_prototype` (multi-parent merge resolution),
* `extract`       embeds the field-extraction part of `spawn`,
* `spawn`         embeds the public `spawn` entry point up to the hand-off
                  of the instruction batch to `_batch_create_object`
                  (the object store itself is an external collaborator).

Python dictionaries are modelled as association lists with unique keys,
Python values by the inductive type `Val`.  Zero-argument callables
("deferred producers") are modelled as `Val.vthunk i`: invoking producer
`i` yields `cfg.env i` and appends `i` to an invocation log, which lets us
reason about how often producers are invoked.  Recursion through the
registry is fuel-indexed; `Err.outOfFuel` marks fuel exhaustion and is
distinct from every error the Python code can raise.
-/

namespace Spawner

/-- A Python value as used by the spawner: strings, ints, bools, `None`,
lists, tuples, and zero-argument callables (deferred producers), the latter
identified by a numeric id. -/
inductive Val where
  | vstr : String → Val
  | vint : Int → Val
  | vbool : Bool → Val
  | vnone : Val
  | vlist : List Val → Val
  | vtup : List Val → Val
  | vthunk : Nat → Val
  deriving Repr

/-- Python truthiness of a value (`if protstrings:` etc.). -/
def truthy : Val → Bool
  | Val.vstr s => !s.isEmpty
  | Val.vint n => n != 0
  | Val.vbool b => b
  | Val.vnone => false
  | Val.vlist l => !l.isEmpty
  | Val.vtup l => !l.isEmpty
  | Val.vthunk _ => true

/-- `callable(v)` for spawner values: only deferred producers are callable. -/
def callable : Val → Bool
  | Val.vthunk _ => true
  | _ => false

/-- `evennia.utils.utils.make_iter`: lists and tuples are already iterable,
anything else (including strings, which lack `__iter__` in this code base's
Python) is wrapped in a one-element list. -/
def makeIter : Val → List Val
  | Val.vlist l => l
  | Val.vtup l => l
  | v => [v]

/-- A prototype record body: a Python dict from field name to value,
modelled as an association list. -/
abbrev Record := List (String × Val)

/-- Dict lookup (first matching key). -/
def rget? : Record → String → Option Val
  | [], _ => none
  | (k1, v) :: rest, k => if k1 = k then some v else rget? rest k

/-- The keys of a record. -/
def rkeys (d : Record) : List String := d.map Prod.fst

/-- Dict `pop(k, ...)` / `del`: remove the key `k`. -/
def rpop : Record → String → Record
  | [], _ => []
  | (k1, v) :: rest, k => if k1 = k then rpop rest k else (k1, v) :: rpop rest k

/-- Dict assignment `d[k] = v`. -/
def rset (d : Record) (k : String) (v : Val) : Record :=
  rpop d k ++ [(k, v)]

/-- Dict `d.update(e)`: every entry of `e` overwrites the same-named entry
of `d`. -/
def rupdate (d e : Record) : Record :=
  e.foldl (fun acc kv => rset acc kv.1 kv.2) d

/-- `d.pop(k, default)`: the popped value (or the default) together with the
record without `k`. -/
def popD (d : Record) (k : String) (dv : Val) : Val × Record :=
  (match rget? d k with
   | some v => v
   | none => dv,
   rpop d k)

/-- A prototype record together with a stable identity token, mirroring the
Python dict object identity that `_validate_prototype` keys its visited set
on (`id(prototype)`). -/
structure PRecord where
  rid : Nat
  fields : Record
  deriving Repr

/-- The prototype registry (`protparents`): a dict from prototype name to
prototype record. -/
abbrev Registry := List (String × PRecord)

/-- Registry lookup `protparents.get(name)`. -/
def regGet? : Registry → String → Option PRecord
  | [], _ => none
  | (k, p) :: rest, s => if k = s then some p else regGet? rest s

/-- Registry assignment, used while merging registry sources. -/
def regSet (reg : Registry) (k : String) (p : PRecord) : Registry :=
  (reg.filter fun kv => !(kv.1 == k)) ++ [(k, p)]

/-- `protparents.update(source)`. -/
def regUpdate (reg e : Registry) : Registry :=
  e.foldl (fun acc kv => regSet acc kv.1 kv.2) reg

/-- Errors of the spawner core.  `selfRef`, `notFound` and `nesting` are the
three `RuntimeError`s of `_validate_prototype` (self-prototyping, unknown
parent, "infinite nesting"); `typeError` stands for a Python `TypeError`
raised during extraction; `outOfFuel` is an artifact of the fuel-indexed
embedding and corresponds to no Python behaviour. -/
inductive Err where
  | outOfFuel : Err
  | selfRef : Option String → Err
  | notFound : Option String → Val → Err
  | nesting : Option String → Err
  | typeError : Err
  deriving Repr

/-- `protparents.get(protstring)` as used in the validator's parent loop:
only string names can be registry keys. -/
def lookupParent (reg : Registry) : Val → Option PRecord
  | Val.vstr s => regGet? reg s
  | _ => none

/-- The string shown for a parent reference (parent references that pass
validation are always strings). -/
def pjoin : Val → String
  | Val.vstr s => s
  | _ => ""

/-- `key is not None and protstring == key`: a record listing its own name
as parent. -/
def isSelfRef (key : Option String) (p : Val) : Bool :=
  match key, p with
  | some k, Val.vstr s => s == k
  | _, _ => false

/-- The parent loop of `_validate_prototype`: for each listed parent,
check self-reference, look the parent up (`if not protparent` — absence
and a falsy empty record both fail), then recurse via `vstep`, threading
the (Python-mutable, never shrinking) visited list through the loop. -/
def vParents (vstep : String → PRecord → List Nat → Except Err (List Nat))
    (key : Option String) (reg : Registry) :
    List Val → List Nat → Except Err (List Nat)
  | [], visited => Except.ok visited
  | p :: rest, visited =>
    if isSelfRef key p then Except.error (Err.selfRef key)
    else
      match lookupParent reg p with
      | none => Except.error (Err.notFound key p)
      | some q =>
        if q.fields.isEmpty then Except.error (Err.notFound key p)
        else
          match vstep (pjoin p) q visited with
          | Except.error e => Except.error e
          | Except.ok vis2 => vParents vstep key reg rest vis2

/-- `_validate_prototype(key, prototype, protparents, visited)`.  Checks the
current record's identity against the accumulated visited list, records it,
and (when the `prototype` field is present and truthy) validates every
listed parent depth-first against the same accumulating visited list.
Returns the final visited list on success. -/
def validate : Nat → Option String → PRecord → Registry → List Nat →
    Except Err (List Nat)
  | 0, _, _, _, _ => Except.error Err.outOfFuel
  | fuel+1, key, p, reg, visited =>
    if p.rid ∈ visited then Except.error (Err.nesting key)
    else
      let visited1 := visited ++ [p.rid]
      match rget? p.fields "prototype" with
      | none => Except.ok visited1
      | some pv =>
        if truthy pv then
          vParents (fun s q vis => validate fuel (some s) q reg vis)
            key reg (makeIter pv) visited1
        else Except.ok visited1

/-- `protparents.get(prototype, {})` as used by the resolver. -/
def parentRec (reg : Registry) : Val → Record
  | Val.vstr s =>
    match regGet? reg s with
    | some q => q.fields
    | none => []
  | _ => []

/-- The parent loop of `_get_prototype`: fold the accumulator record
through the recursive resolution (`step`) of each listed parent, left to
right.  (In the source, `prot.update(new_prot)` after the recursive call is
a no-op because `new_prot` *is* the in-place-mutated `prot`.) -/
def goWith (step : Val → Record → Option Record) :
    List Val → Record → Option Record
  | [], prot => some prot
  | p :: rest, prot =>
    match step p prot with
    | none => none
    | some prot2 => goWith step rest prot2

/-- `_get_prototype(dic, prot, protparents)`: recursively merge the parent
chain into `prot` (later parents overwriting earlier ones), overlay `dic`'s
own fields, and drop the `prototype` key.  The resolver performs no cycle
detection; fuel exhaustion yields `none`. -/
def getPrototype : Nat → Record → Record → Registry → Option Record
  | 0, _, _, _ => none
  | fuel+1, dic, prot, reg =>
    match (match rget? dic "prototype" with
           | some pv =>
             goWith (fun p pr => getPrototype fuel (parentRec reg p) pr reg)
               (makeIter pv) prot
           | none => some prot) with
    | none => none
    | some prot1 => some (rpop (rupdate prot1 dic) "prototype")

/-- External inputs of one spawn call: the generated placeholder key
(`"Spawned Object %06i" % randint(...)`), `settings.DEFAULT_HOME`,
`settings.BASE_OBJECT_TYPECLASS`, the `dbid_to_obj` collaborator
(`_handle_dbref`), and the values produced by each deferred producer
(`env i` is what invoking producer `i` returns). -/
structure Config where
  defaultKey : Val
  defaultHome : Val
  defaultTypeclass : Val
  handleDbref : Val → Val
  env : Nat → Val

/-- `val() if callable(val) else val`, together with the invocation log of
this step. -/
def resolveVal (cfg : Config) : Val → Val × List Nat
  | Val.vthunk i => (cfg.env i, [i])
  | v => (v, [])

/-- `val() if callable(val) else _handle_dbref(val)` (location, home and
destination fields). -/
def resolveDbref (cfg : Config) : Val → Val × List Nat
  | Val.vthunk i => (cfg.env i, [i])
  | v => (cfg.handleDbref v, [])

/-- `prot.pop(k, dv)` followed by a resolver: the resolved value, the
remaining record, and the invocation log. -/
def popResolveWith (res : Val → Val × List Nat) (d : Record) (k : String)
    (dv : Val) : Val × Record × List Nat :=
  match popD d k dv with
  | (v, d2) =>
    match res v with
    | (v2, l) => (v2, d2, l)

/-- Pop and resolve a plain field. -/
def popResolve (cfg : Config) : Record → String → Val → Val × Record × List Nat :=
  popResolveWith (resolveVal cfg)

/-- Pop and resolve a dbref field. -/
def popResolveDb (cfg : Config) : Record → String → Val → Val × Record × List Nat :=
  popResolveWith (resolveDbref cfg)

/-- `key.startswith("ndb_")`, computed on the character list. -/
def isNdbName (k : String) : Bool :=
  k.data.take 4 == "ndb_".data

/-- `key.split("_", 1)[1]` for a key starting with `ndb_`: drop the
four-character `ndb_` head. -/
def stripNdb (k : String) : String :=
  String.mk (k.data.drop 4)

/-- The `nattributes` dict comprehension: every remaining field whose name
starts with `ndb_` becomes a process-local attribute under the stripped
name, its value resolved if deferred.  (The Python dict comprehension also
collapses duplicate stripped names; records modelling Python dicts have
unique keys, and only a duplicate key could collide here.) -/
def extractNdb (cfg : Config) : Record → List (String × Val) × List Nat
  | [] => ([], [])
  | (k, v) :: rest =>
    let r := extractNdb cfg rest
    if isNdbName k then
      match resolveVal cfg v with
      | (v2, lv) => ((stripNdb k, v2) :: r.1, lv ++ r.2)
    else r

/-- The `simple_attributes` list comprehension: every remaining
non-`ndb_` field becomes a persistent `(name, value)` tuple, its value
resolved if deferred. -/
def extractSimple (cfg : Config) : Record → List Val × List Nat
  | [] => ([], [])
  | (k, v) :: rest =>
    let r := extractSimple cfg rest
    if isNdbName k then r
    else
      match resolveVal cfg v with
      | (v2, lv) => (Val.vtup [Val.vstr k, v2] :: r.1, lv ++ r.2)

/-- `tup[0]` on an attribute entry; non-indexable values and empty
sequences raise (`TypeError`/`IndexError`, both folded into
`Err.typeError`). -/
def tup0 : Val → Except Err Val
  | Val.vtup (x :: _) => Except.ok x
  | Val.vlist (x :: _) => Except.ok x
  | Val.vstr s =>
    if s.isEmpty then Except.error Err.typeError
    else Except.ok (Val.vstr (s.take 1))
  | _ => Except.error Err.typeError

/-- `tup[0] in _CREATE_OBJECT_KWARGS` with
`_CREATE_OBJECT_KWARGS = ("key", "location", "home", "destination")`. -/
def isReservedName : Val → Bool
  | Val.vstr s => s == "key" || s == "location" || s == "home" || s == "destination"
  | _ => false

/-- `[tup for tup in attributes if not tup[0] in _CREATE_OBJECT_KWARGS]`. -/
def filterAttrs : List Val → Except Err (List Val)
  | [] => Except.ok []
  | t :: rest =>
    match tup0 t with
    | Except.error e => Except.error e
    | Except.ok x =>
      match filterAttrs rest with
      | Except.error e => Except.error e
      | Except.ok r =>
        if isReservedName x then Except.ok r else Except.ok (t :: r)

/-- One creation instruction: the tuple `spawn` appends to `objsparams`
for `_batch_create_object`. -/
structure ObjParams where
  dbKey : Val
  dbLocation : Val
  dbHome : Val
  dbDestination : Val
  dbTypeclassPath : Val
  permissionString : Val
  lockString : Val
  aliasString : Val
  nattributes : List (String × Val)
  attributes : List Val
  tags : Val
  execs : List Val
  deriving Repr

/-- The field-extraction part of `spawn` (source lines 258-301), applied to
one resolved record.  Returns the creation instruction and the producer
invocation log, or the `TypeError` the Python code would raise.  Note the
faithful translation of line 284: whether the `attrs` value is invoked is
decided by the callability of the `tags` value
(`attributes = attrval() if callable(tagval) else attrval`). -/
def extract (cfg : Config) (prot0 : Record) : Except Err (ObjParams × List Nat) :=
  match popResolve cfg prot0 "key" cfg.defaultKey with
  | (dbKey, prot1, l1) =>
  match popResolveDb cfg prot1 "location" Val.vnone with
  | (dbLoc, prot2, l2) =>
  match popResolveDb cfg prot2 "home" cfg.defaultHome with
  | (dbHome, prot3, l3) =>
  match popResolveDb cfg prot3 "destination" Val.vnone with
  | (dbDest, prot4, l4) =>
  match popResolve cfg prot4 "typeclass" cfg.defaultTypeclass with
  | (dbTyp, prot5, l5) =>
  match popResolve cfg prot5 "permissions" (Val.vlist []) with
  | (permS, prot6, l6) =>
  match popResolve cfg prot6 "locks" (Val.vstr "") with
  | (lockS, prot7, l7) =>
  match popResolve cfg prot7 "aliases" (Val.vstr "") with
  | (aliasS, prot8, l8) =>
  match popD prot8 "tags" (Val.vlist []) with
  | (tagval, prot9) =>
  match resolveVal cfg tagval with
  | (tags, l9) =>
  match popD prot9 "attrs" (Val.vlist []) with
  | (attrval, prot10) =>
  match (match callable tagval with
         | true =>
           match attrval with
           | Val.vthunk i => Except.ok (cfg.env i, ([i] : List Nat))
           | _ => (Except.error Err.typeError : Except Err (Val × List Nat))
         | false => Except.ok (attrval, ([] : List Nat))) with
  | Except.error e => Except.error e
  | Except.ok (attrsRaw, la) =>
  match popResolve cfg prot10 "exec" (Val.vstr "") with
  | (exres, prot11, l11) =>
  match extractNdb cfg prot11 with
  | (natts, ln) =>
  match extractSimple cfg prot11 with
  | (simpleAtts, ls) =>
  match attrsRaw with
  | Val.vlist attrList =>
    match filterAttrs (attrList ++ simpleAtts) with
    | Except.error e => Except.error e
    | Except.ok finalAtts =>
      Except.ok
        ({ dbKey := dbKey, dbLocation := dbLoc, dbHome := dbHome,
           dbDestination := dbDest, dbTypeclassPath := dbTyp,
           permissionString := permS, lockString := lockS,
           aliasString := aliasS, nattributes := natts,
           attributes := finalAtts, tags := tags,
           execs := makeIter exres },
         l1 ++ l2 ++ l3 ++ l4 ++ l5 ++ l6 ++ l7 ++ l8 ++ l9 ++ la ++ l11
           ++ ln ++ ls)
  | _ => Except.error Err.typeError

/-- Processing of one requested prototype inside the spawn loop: validate
it with `key = None`, resolve it, skip it when the resolved record is empty
(`if not prot: continue`), otherwise extract its creation instruction. -/
def processOne (cfg : Config) (reg : Registry) (fuel : Nat) (p : PRecord) :
    Except Err (Option (ObjParams × List Nat)) :=
  match validate fuel none p reg [] with
  | Except.error e => Except.error e
  | Except.ok _ =>
    match getPrototype fuel p.fields [] reg with
    | none => Except.error Err.outOfFuel
    | some prot =>
      if prot.isEmpty then Except.ok none
      else
        match extract cfg prot with
        | Except.error e => Except.error e
        | Except.ok pr => Except.ok (some pr)

/-- The spawn loop over the requested prototypes, accumulating the batch of
creation instructions and the combined producer invocation log. -/
def spawnGo (cfg : Config) (reg : Registry) (fuel : Nat) :
    List PRecord → List ObjParams → List Nat →
    Except Err (List ObjParams × List Nat)
  | [], acc, log => Except.ok (acc, log)
  | p :: rest, acc, log =>
    match processOne cfg reg fuel p with
    | Except.error e => Except.error e
    | Except.ok none => spawnGo cfg reg fuel rest acc log
    | Except.ok (some (params, lg)) =>
      spawnGo cfg reg fuel rest (acc ++ [params]) (log ++ lg)

/-- `for key, prototype in protparents.items(): _validate_prototype(...)`:
every registry entry is validated with a fresh visited list; the first
failure aborts. -/
def validateAll (reg : Registry) (fuel : Nat) :
    List (String × PRecord) → Except Err Unit
  | [] => Except.ok ()
  | (k, p) :: rest =>
    match validate fuel (some k) p reg [] with
    | Except.error e => Except.error e
    | Except.ok _ => validateAll reg fuel rest

/-- The registry built by one spawn call: the module-supplied sources are
merged in order, then the `prototype_parents` keyword mapping overwrites
same-named entries.  (Module scanning itself — `all_from_module` filtered
to dict values — is the external registry-source collaborator; `sources`
holds its outputs.) -/
def mergedReg (sources : List Registry) (protoParents : Registry) : Registry :=
  regUpdate (sources.foldl regUpdate []) protoParents

/-- The two possible outcomes of `spawn`: the deep copy of the registry
(for the pure values of this model a structural copy is the value itself),
or the batch of creation instructions handed to `_batch_create_object`,
with the producer invocation log. -/
inductive SpawnResult where
  | registry : Registry → SpawnResult
  | created : List ObjParams → List Nat → SpawnResult
  deriving Repr

/-- The public entry point `spawn(*prototypes, **kwargs)` up to the store
hand-off: build the registry, validate every entry, short-circuit on the
`return_prototypes` keyword (its mere *presence* — `"return_prototypes" in
kwargs` — triggers the short circuit, whatever its value), else validate,
resolve and extract each requested prototype and hand the whole batch over
at once. -/
def spawn (cfg : Config) (sources : List Registry) (protoParents : Registry)
    (returnPrototypes : Option Val) (prototypes : List PRecord) (fuel : Nat) :
    Except Err SpawnResult :=
  let reg := mergedReg sources protoParents
  match validateAll reg fuel reg with
  | Except.error e => Except.error e
  | Except.ok _ =>
    if returnPrototypes.isSome then Except.ok (SpawnResult.registry reg)
    else
      match spawnGo cfg reg fuel prototypes [] [] with
      | Except.error e => Except.error e
      | Except.ok (batch, log) => Except.ok (SpawnResult.created batch log)

/-! ### Dictionary lemmas -/

theorem rget?_append (a b : Record) (k : String) :
    rget? (a ++ b) k =
      (match rget? a k with
       | some v => some v
       | none => rget? b k) := by
  induction a with
  | nil => simp [rget?]
  | cons hd tl ih =>
    obtain ⟨k1, v⟩ := hd
    by_cases h : k1 = k <;> simp [rget?, h, ih]

theorem rget?_rpop_self (d : Record) (k : String) :
    rget? (rpop d k) k = none := by
  induction d with
  | nil => simp [rpop, rget?]
  | cons hd tl ih =>
    obtain ⟨k1, v⟩ := hd
    by_cases h : k1 = k <;> simp [rpop, rget?, h, ih]

theorem rget?_rpop_ne (d : Record) {k k2 : String} (h : k2 ≠ k) :
    rget? (rpop d k) k2 = rget? d k2 := by
  have hks : k ≠ k2 := fun hc => h hc.symm
  induction d with
  | nil => simp [rpop]
  | cons hd tl ih =>
    obtain ⟨k1, v⟩ := hd
    by_cases h1 : k1 = k
    · subst h1
      simp [rpop, rget?, hks, ih]
    · by_cases h2 : k1 = k2
      · subst h2
        simp [rpop, rget?, h1]
      · simp [rpop, rget?, h1, h2, ih]

theorem not_mem_rkeys_rpop_self (d : Record) (k : String) :
    k ∉ rkeys (rpop d k) := by
  induction d with
  | nil => simp [rpop, rkeys]
  | cons hd tl ih =>
    obtain ⟨k1, v⟩ := hd
    by_cases h : k1 = k
    · simpa [rpop, h] using ih
    · simp only [rpop, if_neg h, rkeys, List.map_cons, List.mem_cons]
      push_neg
      exact ⟨fun hc => h hc.symm, ih⟩

theorem rkeys_rpop_subset (d : Record) (k : String) :
    rkeys (rpop d k) ⊆ rkeys d := by
  induction d with
  | nil => simp [rpop]
  | cons hd tl ih =>
    obtain ⟨k1, v⟩ := hd
    by_cases h : k1 = k
    · simp only [rpop, h, if_pos rfl, rkeys, List.map_cons]
      exact fun x hx => List.mem_cons_of_mem _ (ih hx)
    · simp only [rpop, if_neg h, rkeys, List.map_cons]
      intro x hx
      rcases List.mem_cons.mp hx with h1 | h1
      · exact List.mem_cons.mpr (Or.inl h1)
      · exact List.mem_cons.mpr (Or.inr (ih h1))

theorem nodup_rkeys_rpop {d : Record} (k : String)
    (h : (rkeys d).Nodup) : (rkeys (rpop d k)).Nodup := by
  induction d with
  | nil => simp [rpop, rkeys]
  | cons hd tl ih =>
    obtain ⟨k1, v⟩ := hd
    simp only [rkeys, List.map_cons, List.nodup_cons] at h
    by_cases hk : k1 = k
    · simpa [rpop, hk] using ih h.2
    · simp only [rpop, if_neg hk, rkeys, List.map_cons, List.nodup_cons]
      exact ⟨fun hc => h.1 (rkeys_rpop_subset tl k hc), ih h.2⟩

theorem rget?_eq_none_of_not_mem {d : Record} {k : String}
    (h : k ∉ rkeys d) : rget? d k = none := by
  induction d with
  | nil => rfl
  | cons hd tl ih =>
    obtain ⟨k1, v⟩ := hd
    simp only [rkeys, List.map_cons, List.mem_cons] at h
    push_neg at h
    have h1 : k1 ≠ k := fun hc => h.1 hc.symm
    simp [rget?, h1, ih h.2]

theorem not_mem_of_rget?_eq_none {d : Record} {k : String}
    (h : rget? d k = none) : k ∉ rkeys d := by
  induction d with
  | nil => simp [rkeys]
  | cons hd tl ih =>
    obtain ⟨k1, v⟩ := hd
    by_cases h1 : k1 = k
    · simp [rget?, h1] at h
    · simp only [rget?, if_neg h1] at h
      simp only [rkeys, List.map_cons, List.mem_cons]
      push_neg
      exact ⟨fun hc => h1 hc.symm, ih h⟩

theorem rpop_eq_self_of_not_mem {d : Record} {k : String}
    (h : rget? d k = none) : rpop d k = d := by
  induction d with
  | nil => rfl
  | cons hd tl ih =>
    obtain ⟨k1, v⟩ := hd
    by_cases h1 : k1 = k
    · simp [rget?, h1] at h
    · simp only [rget?, if_neg h1] at h
      simp [rpop, h1, ih h]

theorem rget?_rset_self (d : Record) (k : String) (v : Val) :
    rget? (rset d k v) k = some v := by
  unfold rset
  rw [rget?_append]
  simp [rget?_rpop_self, rget?]

theorem rget?_rset_ne (d : Record) {k k2 : String} (v : Val) (h : k2 ≠ k) :
    rget? (rset d k v) k2 = rget? d k2 := by
  unfold rset
  rw [rget?_append]
  rw [rget?_rpop_ne d h]
  have hk : k ≠ k2 := fun hc => h hc.symm
  cases hd : rget? d k2 <;> simp [rget?, hk]

theorem rget?_rupdate_not_mem {e : Record} {k : String} (d : Record)
    (h : rget? e k = none) : rget? (rupdate d e) k = rget? d k := by
  induction e generalizing d with
  | nil => rfl
  | cons hd tl ih =>
    obtain ⟨k1, v⟩ := hd
    by_cases h1 : k1 = k
    · simp [rget?, h1] at h
    · simp only [rget?, if_neg h1] at h
      show rget? (rupdate (rset d k1 v) tl) k = rget? d k
      rw [ih (rset d k1 v) h, rget?_rset_ne d v (fun hc => h1 hc.symm)]

theorem rget?_rupdate_of_mem {e : Record} {k : String} {v : Val} (d : Record)
    (hN : (rkeys e).Nodup) (h : rget? e k = some v) :
    rget? (rupdate d e) k = some v := by
  induction e generalizing d with
  | nil => simp [rget?] at h
  | cons hd tl ih =>
    obtain ⟨k1, v1⟩ := hd
    simp only [rkeys, List.map_cons, List.nodup_cons] at hN
    by_cases h1 : k1 = k
    · subst h1
      simp only [rget?, if_pos rfl] at h
      injection h with hv
      subst hv
      show rget? (rupdate (rset d k1 v1) tl) k1 = some v1
      have hk : rget? tl k1 = none :=
        rget?_eq_none_of_not_mem (by simpa [rkeys] using hN.1)
      rw [rget?_rupdate_not_mem (rset d k1 v1) hk]
      exact rget?_rset_self d k1 v1
    · simp only [rget?, if_neg h1] at h
      show rget? (rupdate (rset d k1 v1) tl) k = some v
      exact ih (rset d k1 v1) hN.2 h

/-! ### Resolution lemmas -/

theorem getPrototype_own_field {fuel : Nat} {dic prot r : Record}
    {reg : Registry} {k : String} {v : Val}
    (hres : getPrototype fuel dic prot reg = some r)
    (hN : (rkeys dic).Nodup) (hv : rget? dic k = some v)
    (hk : k ≠ "prototype") : rget? r k = some v := by
  cases fuel with
  | zero => simp [getPrototype] at hres
  | succ fuel =>
    simp only [getPrototype] at hres
    split at hres
    · exact Option.noConfusion hres
    · injection hres with hr
      subst hr
      rw [rget?_rpop_ne _ hk]
      exact rget?_rupdate_of_mem _ hN hv

theorem getPrototype_no_prototype_key {fuel : Nat} {dic prot r : Record}
    {reg : Registry} (hres : getPrototype fuel dic prot reg = some r) :
    rget? r "prototype" = none := by
  cases fuel with
  | zero => simp [getPrototype] at hres
  | succ fuel =>
    simp only [getPrototype] at hres
    split at hres
    · exact Option.noConfusion hres
    · injection hres with hr
      subst hr
      exact rget?_rpop_self _ _

/-- Claim C1 registry/prototype data: a two-parent prototype in the style of
`GOBLIN_ARCHWIZARD`. -/
def c1G : PRecord :=
  ⟨0, [("key", Val.vstr "grunt"), ("attacks", Val.vstr "fists"),
       ("health", Val.vint 30)]⟩

def c1W : PRecord :=
  ⟨1, [("prototype", Val.vstr "GOBLIN"), ("key", Val.vstr "wiz"),
       ("attacks", Val.vstr "spells")]⟩

def c1A : PRecord :=
  ⟨2, [("key", Val.vstr "arch"), ("attacks", Val.vstr "staff")]⟩

def c1Reg : Registry := [("GOBLIN", c1G), ("WIZ", c1W), ("ARCH", c1A)]

def c1P : Record :=
  [("key", Val.vstr "gaw"),
   ("prototype", Val.vlist [Val.vstr "WIZ", Val.vstr "ARCH"])]

/-- C1: for a prototype `P` with parents `[a, b]` both defining field `f0`,
the successfully resolved record carries the later (rightmost) parent's
value for `f0` when `P` itself does not define it, and `P`'s own value when
it does — descendant over ancestor, later parent over earlier parent, self
over every parent. -/
theorem C1_resolution_precedence (fuel : Nat) (P r : Record) (reg : Registry)
    (a b f0 : String) (A B : PRecord) (vA vB : Val)
    (hP : rget? P "prototype" = some (Val.vlist [Val.vstr a, Val.vstr b]))
    (hA : regGet? reg a = some A) (hB : regGet? reg b = some B)
    (hvA : rget? A.fields f0 = some vA) (hvB : rget? B.fields f0 = some vB)
    (hf : f0 ≠ "prototype")
    (hNP : (rkeys P).Nodup) (hNB : (rkeys B.fields).Nodup)
    (hres : getPrototype fuel P [] reg = some r) :
    (rget? P f0 = none → rget? r f0 = some vB) ∧
      (∀ vP, rget? P f0 = some vP → rget? r f0 = some vP) := by
  cases fuel with
  | zero => simp [getPrototype] at hres
  | succ fuel =>
    simp only [getPrototype, hP, makeIter, goWith] at hres
    rcases ha : getPrototype fuel (parentRec reg (Val.vstr a)) [] reg with _ | prota
    · rw [ha] at hres
      simp at hres
    · rw [ha] at hres
      dsimp only at hres
      rcases hb : getPrototype fuel (parentRec reg (Val.vstr b)) prota reg with _ | prot1
      · rw [hb] at hres
        simp at hres
      · rw [hb] at hres
        dsimp only at hres
        injection hres with hr
        subst hr
        have hbB : parentRec reg (Val.vstr b) = B.fields := by
          simp [parentRec, hB]
        rw [hbB] at hb
        have hvB1 : rget? prot1 f0 = some vB :=
          getPrototype_own_field hb hNB hvB hf
        constructor
        · intro hnone
          rw [rget?_rpop_ne _ hf, rget?_rupdate_not_mem _ hnone]
          exact hvB1
        · intro vP hvP
          rw [rget?_rpop_ne _ hf]
          exact rget?_rupdate_of_mem _ hNP hvP

/-- The resolved record of `c1P` against `c1Reg`. -/
def c1R : Record :=
  [("health", Val.vint 30), ("attacks", Val.vstr "staff"),
   ("key", Val.vstr "gaw")]

/-- C1 witness: resolving the concrete two-parent prototype, the later
parent's `attacks` wins, and the prototype's own `key` wins over both
parents. -/
theorem C1_resolution_precedence_witness :
    rget? c1R "attacks" = some (Val.vstr "staff") ∧
      rget? c1R "key" = some (Val.vstr "gaw") :=
  ⟨(C1_resolution_precedence 5 c1P c1R c1Reg "WIZ" "ARCH" "attacks" c1W c1A
      (Val.vstr "spells") (Val.vstr "staff") rfl rfl rfl rfl rfl
      (by decide) (by decide) (by decide) rfl).1 rfl,
   (C1_resolution_precedence 5 c1P c1R c1Reg "WIZ" "ARCH" "key" c1W c1A
      (Val.vstr "wiz") (Val.vstr "arch") rfl rfl rfl rfl rfl
      (by decide) (by decide) (by decide) rfl).2 (Val.vstr "gaw") rfl⟩

/-! ### Claims C2 and C8: validator behaviour on concrete graphs -/

/-- Diamond registry: `D` has parents `[B, C]`, both `B` and `C` have the
single parent `A`; no cycle exists. -/
def c2A : PRecord := ⟨0, [("ka", Val.vint 1)]⟩

def c2B : PRecord := ⟨1, [("prototype", Val.vstr "A"), ("kb", Val.vint 2)]⟩

def c2C : PRecord := ⟨2, [("prototype", Val.vstr "A"), ("kc", Val.vint 3)]⟩

def c2D : PRecord :=
  ⟨3, [("prototype", Val.vlist [Val.vstr "B", Val.vstr "C"]), ("kd", Val.vint 4)]⟩

def c2Reg : Registry := [("A", c2A), ("B", c2B), ("C", c2C), ("D", c2D)]

/-- C2 (code bug): validating the diamond record `D` *raises* the
cyclic-inheritance ("infinite nesting") error — the visited list
accumulates across sibling parents and `A`, reached again via `C`, is
rejected although no cycle exists and nothing is infinitely nested.  The
resolver itself handles the diamond fine (second and third conjuncts):
resolution terminates with the expected merged record, so the claim's
"resolves without a cycle error" part holds and only validation
misbehaves. -/
theorem C2_diamond_behaviour :
    validate 9 (some "D") c2D c2Reg [] = Except.error (Err.nesting (some "A"))
      ∧ getPrototype 9 c2D.fields [] c2Reg =
          some [("kb", Val.vint 2), ("ka", Val.vint 1), ("kc", Val.vint 3),
                ("kd", Val.vint 4)]
      ∧ validateAll c2Reg 9 [("A", c2A), ("B", c2B), ("C", c2C)] =
          Except.ok () :=
  ⟨rfl, rfl, rfl⟩

/-- Registry with a self-referencing entry. -/
def c8Self : PRecord := ⟨0, [("prototype", Val.vstr "X")]⟩

def c8SelfReg : Registry := [("X", c8Self)]

/-- Registry with the 3-cycle `X → Y → Z → X`. -/
def c8X : PRecord := ⟨1, [("prototype", Val.vstr "Y")]⟩

def c8Y : PRecord := ⟨2, [("prototype", Val.vstr "Z")]⟩

def c8Z : PRecord := ⟨3, [("prototype", Val.vstr "X")]⟩

def c8Reg : Registry := [("X", c8X), ("Y", c8Y), ("Z", c8Z)]

/-- C8: a prototype listing its own name raises the self-reference error,
and in the 3-cycle registry each of the three entries, validated at top
level with a fresh visited list, raises the cyclic-inheritance ("infinite
nesting") error. -/
theorem C8_self_reference_and_cycle :
    validate 9 (some "X") c8Self c8SelfReg [] =
        Except.error (Err.selfRef (some "X"))
      ∧ validate 9 (some "X") c8X c8Reg [] =
          Except.error (Err.nesting (some "X"))
      ∧ validate 9 (some "Y") c8Y c8Reg [] =
          Except.error (Err.nesting (some "Y"))
      ∧ validate 9 (some "Z") c8Z c8Reg [] =
          Except.error (Err.nesting (some "Z")) :=
  ⟨rfl, rfl, rfl, rfl⟩

/-! ### Claim C5: what triggers the unknown-parent error -/

/-- Inside one top-level validation, an unknown-parent error naming parent
`s` can only originate from the lookup check `if not protparent:` — so the
registry really has no entry named `s`, or its entry is an empty (falsy)
record. -/
theorem vParents_notFound_src {reg : Registry} {fuel : Nat}
    (IH : ∀ key p vis a s,
      validate fuel key p reg vis = Except.error (Err.notFound a (Val.vstr s)) →
      regGet? reg s = none ∨ ∃ q, regGet? reg s = some q ∧ q.fields = []) :
    ∀ ps key vis a s,
      vParents (fun s2 q v => validate fuel (some s2) q reg v) key reg ps vis =
          Except.error (Err.notFound a (Val.vstr s)) →
      regGet? reg s = none ∨ ∃ q, regGet? reg s = some q ∧ q.fields = [] := by
  intro ps
  induction ps with
  | nil =>
    intro key vis a s h
    simp [vParents] at h
  | cons p rest ih =>
    intro key vis a s h
    simp only [vParents] at h
    split at h
    · simp at h
    · split at h
      · rename_i hlook
        injection h with h1
        injection h1 with hk hp
        subst hp
        simp only [lookupParent] at hlook
        exact Or.inl hlook
      · rename_i q hlook
        split at h
        · rename_i hemp
          injection h with h1
          injection h1 with hk hp
          subst hp
          simp only [lookupParent] at hlook
          exact Or.inr ⟨q, hlook, List.isEmpty_iff.mp hemp⟩
        · split at h
          · rename_i e hstep
            injection h with h1
            subst h1
            exact IH _ _ _ _ _ hstep
          · rename_i vis2 hstep
            exact ih _ _ _ _ h

/-- Lifting `vParents_notFound_src` through the validator: whenever
validation fails with the unknown-parent error for name `s`, the registry
has no entry named `s` or maps `s` to an empty record. -/
theorem validate_notFound_src {reg : Registry} :
    ∀ fuel key p vis a s,
      validate fuel key p reg vis = Except.error (Err.notFound a (Val.vstr s)) →
      regGet? reg s = none ∨ ∃ q, regGet? reg s = some q ∧ q.fields = [] := by
  intro fuel
  induction fuel with
  | zero =>
    intro key p vis a s h
    simp [validate] at h
  | succ fuel IH =>
    intro key p vis a s h
    simp only [validate] at h
    split at h
    · simp at h
    · split at h
      · simp at h
      · split at h
        · exact vParents_notFound_src IH _ _ _ _ _ h
        · simp at h

/-- C5 counterexample: parent name `"A"` is *present* in the registry
(mapped to the empty record, which resolves to an empty mapping), yet
validation raises the unknown-parent error for it, because the source
checks `if not protparent:` — truthiness, not presence. -/
theorem C5_empty_parent_counterexample :
    regGet? [("A", (⟨1, []⟩ : PRecord))] "A" = some ⟨1, []⟩
      ∧ validate 5 (some "P") ⟨0, [("prototype", Val.vstr "A")]⟩
          [("A", (⟨1, []⟩ : PRecord))] [] =
        Except.error (Err.notFound (some "P") (Val.vstr "A")) :=
  ⟨rfl, rfl⟩

/-- C5 (amended): for a record whose `prototype` field is the single
(non-empty, non-self) name `s`, validation fails with the unknown-parent
error for `s` exactly when `s` is absent from the registry *or* mapped to
an empty (falsy) record. -/
theorem C5_unknown_parent_condition (fuel i : Nat) (k s : String)
    (reg : Registry) (hks : k ≠ s) (hs : s ≠ "") :
    validate (fuel+1) (some k) ⟨i, [("prototype", Val.vstr s)]⟩ reg [] =
        Except.error (Err.notFound (some k) (Val.vstr s))
      ↔ regGet? reg s = none ∨ ∃ q, regGet? reg s = some q ∧ q.fields = [] := by
  constructor
  · intro h
    exact validate_notFound_src _ _ _ _ _ _ h
  · intro h
    have hsk : s ≠ k := fun hc => hks hc.symm
    have hse : s.isEmpty = false := by
      cases hx : s.isEmpty
      · rfl
      · exact absurd ((String.isEmpty_iff s).mp hx) hs
    rcases h with h | ⟨q, hq, hqe⟩
    · simp [validate, vParents, rget?, makeIter, truthy, isSelfRef,
            lookupParent, hse, hsk, h]
    · simp [validate, vParents, rget?, makeIter, truthy, isSelfRef,
            lookupParent, hse, hsk, hq, hqe]

/-- C5 witness: instantiating the amended condition at the concrete
present-but-empty parent. -/
theorem C5_unknown_parent_condition_witness :
    validate 3 (some "P") ⟨0, [("prototype", Val.vstr "A")]⟩
        [("A", (⟨1, []⟩ : PRecord))] [] =
      Except.error (Err.notFound (some "P") (Val.vstr "A")) :=
  (C5_unknown_parent_condition 2 0 "P" "A" [("A", ⟨1, []⟩)]
      (by decide) (by decide)).mpr (Or.inr ⟨⟨1, []⟩, rfl, rfl⟩)

/-! ### Claim C9: termination of resolution on validated registries -/

/-- A registry every entry of which passes validation, yet whose resolution
graph is cyclic: the entry registered under the *empty-string* name lists
parent `"A"`, and `"A"` lists parent `""`.  The validator skips falsy
`prototype` fields (`if protstrings:`), so it never follows `""`; the
resolver follows it (`if "prototype" in dic:` plus `make_iter`), closing
the loop. -/
def c9E : PRecord := ⟨0, [("prototype", Val.vstr "A"), ("x", Val.vint 1)]⟩

def c9A : PRecord := ⟨1, [("prototype", Val.vstr "")]⟩

def c9Reg : Registry := [("", c9E), ("A", c9A)]

/-- If a record's single listed parent fails to resolve, the record fails
to resolve with one more unit of fuel. -/
theorem getPrototype_single_parent_none (fuel : Nat) (dic prot : Record)
    (reg : Registry) (s : String) (q : Record)
    (hproto : rget? dic "prototype" = some (Val.vstr s))
    (hq : parentRec reg (Val.vstr s) = q)
    (hnone : getPrototype fuel q prot reg = none) :
    getPrototype (fuel+1) dic prot reg = none := by
  simp only [getPrototype, hproto, makeIter, goWith, hq, hnone]

/-- Resolution of either record of the cyclic-through-`""` registry fails
for every amount of fuel: the recursion `"" → A → "" → ...` never
terminates. -/
theorem c9_nontermination : ∀ fuel prot,
    getPrototype fuel c9E.fields prot c9Reg = none ∧
      getPrototype fuel c9A.fields prot c9Reg = none := by
  intro fuel
  induction fuel with
  | zero => exact fun prot => ⟨rfl, rfl⟩
  | succ fuel ih =>
    intro prot
    exact ⟨getPrototype_single_parent_none fuel c9E.fields prot c9Reg "A"
        c9A.fields rfl rfl (ih prot).2,
      getPrototype_single_parent_none fuel c9A.fields prot c9Reg ""
        c9E.fields rfl rfl (ih prot).1⟩

/-- C9 counterexample: every entry of `c9Reg` (and hence the whole
registry) passes validation, the record `c9E` is the registry entry named
`""`, yet resolving it terminates for no amount of fuel — the code's
validation does *not* guarantee termination of resolution. -/
theorem C9_validation_no_termination_counterexample :
    validateAll c9Reg 10 c9Reg = Except.ok ()
      ∧ regGet? c9Reg "" = some c9E
      ∧ ∀ fuel, getPrototype fuel c9E.fields [] c9Reg = none :=
  ⟨rfl, rfl, fun fuel => (c9_nontermination fuel []).1⟩

/-- Resolution of the empty record always succeeds in one step. -/
theorem getPrototype_nil_rec (fuel : Nat) (prot : Record) (reg : Registry) :
    getPrototype (fuel+1) [] prot reg = some (rpop prot "prototype") := rfl

/-- One-step unfolding of the resolver at positive fuel. -/
theorem getPrototype_succ (fuel : Nat) (dic prot : Record) (reg : Registry) :
    getPrototype (fuel+1) dic prot reg =
      match (match rget? dic "prototype" with
             | some pv =>
               goWith (fun p pr => getPrototype fuel (parentRec reg p) pr reg)
                 (makeIter pv) prot
             | none => some prot) with
      | none => none
      | some prot1 => some (rpop (rupdate prot1 dic) "prototype") := rfl

/-- If the parent loop of the validator succeeds on a parent list, the
corresponding parent loop of the resolver succeeds as well (given the
resolvability of each validated parent record, and one more unit of fuel
than the validator used). -/
theorem goWith_resolves_of_vParents {reg : Registry} {fuel : Nat}
    (hA : ∀ key p vis vis2,
      validate fuel key p reg vis = Except.ok vis2 →
      ∀ prot, ∃ r, getPrototype (fuel+1) p.fields prot reg = some r) :
    ∀ ps key vis vis2,
      vParents (fun s q v => validate fuel (some s) q reg v) key reg ps vis =
          Except.ok vis2 →
      ∀ prot, ∃ r,
        goWith (fun p pr => getPrototype (fuel+1) (parentRec reg p) pr reg)
          ps prot = some r := by
  intro ps
  induction ps with
  | nil =>
    intro key vis vis2 h prot
    exact ⟨prot, rfl⟩
  | cons p rest ih =>
    intro key vis vis2 h prot
    simp only [vParents] at h
    split at h
    · exact Except.noConfusion h
    · split at h
      · exact Except.noConfusion h
      · rename_i q hlook
        split at h
        · exact Except.noConfusion h
        · split at h
          · exact Except.noConfusion h
          · rename_i vis3 hstep
            cases p with
            | vstr s =>
              have hpr : parentRec reg (Val.vstr s) = q.fields := by
                simp only [lookupParent] at hlook
                simp [parentRec, hlook]
              obtain ⟨prot2, hprot2⟩ := hA _ _ _ _ hstep prot
              obtain ⟨r, hr⟩ := ih _ _ _ h prot2
              refine ⟨r, ?_⟩
              simp only [goWith, hpr, hprot2]
              exact hr
            | vint n => simp [lookupParent] at hlook
            | vbool b => simp [lookupParent] at hlook
            | vnone => simp [lookupParent] at hlook
            | vlist l => simp [lookupParent] at hlook
            | vtup l => simp [lookupParent] at hlook
            | vthunk n => simp [lookupParent] at hlook

/-- Core of the amended C9: on a registry with no empty-string entry, every
record that passes validation resolves successfully with one more unit of
fuel than validation used.  (The empty-string proviso is needed: the
validator does not follow falsy parent references such as `""`, but the
resolver does — see `C9_validation_no_termination_counterexample`.) -/
theorem validate_implies_resolvable {reg : Registry}
    (hreg : regGet? reg "" = none) :
    ∀ fuel key p vis vis2,
      validate fuel key p reg vis = Except.ok vis2 →
      ∀ prot, ∃ r, getPrototype (fuel+1) p.fields prot reg = some r := by
  intro fuel
  induction fuel with
  | zero =>
    intro key p vis vis2 h
    exact absurd h (by simp [validate])
  | succ fuel IH =>
    intro key p vis vis2 h prot
    simp only [validate] at h
    split at h
    · exact Except.noConfusion h
    · split at h
      · rename_i hproto
        refine ⟨rpop (rupdate prot p.fields) "prototype", ?_⟩
        rw [getPrototype_succ, hproto]
      · rename_i pv hproto
        split at h
        · obtain ⟨prot1, h1⟩ :=
            goWith_resolves_of_vParents IH (makeIter pv) _ _ _ h prot
          refine ⟨rpop (rupdate prot1 p.fields) "prototype", ?_⟩
          rw [getPrototype_succ, hproto]
          dsimp only
          rw [h1]
        · rename_i htr
          cases pv with
          | vstr s =>
            have hs : s = "" := by
              have hx : s.isEmpty = true := by simpa [truthy] using htr
              exact (String.isEmpty_iff s).mp hx
            subst hs
            have hpr : parentRec reg (Val.vstr "") = [] := by
              simp [parentRec, hreg]
            refine ⟨rpop (rupdate (rpop prot "prototype") p.fields)
              "prototype", ?_⟩
            rw [getPrototype_succ, hproto]
            dsimp only [makeIter, goWith]
            rw [hpr, getPrototype_nil_rec]
          | vint n =>
            refine ⟨rpop (rupdate (rpop prot "prototype") p.fields)
              "prototype", ?_⟩
            rw [getPrototype_succ, hproto]
            dsimp only [makeIter, goWith, parentRec]
            rw [getPrototype_nil_rec]
          | vbool b =>
            refine ⟨rpop (rupdate (rpop prot "prototype") p.fields)
              "prototype", ?_⟩
            rw [getPrototype_succ, hproto]
            dsimp only [makeIter, goWith, parentRec]
            rw [getPrototype_nil_rec]
          | vnone =>
            refine ⟨rpop (rupdate (rpop prot "prototype") p.fields)
              "prototype", ?_⟩
            rw [getPrototype_succ, hproto]
            dsimp only [makeIter, goWith, parentRec]
            rw [getPrototype_nil_rec]
          | vthunk n =>
            refine ⟨rpop (rupdate (rpop prot "prototype") p.fields)
              "prototype", ?_⟩
            rw [getPrototype_succ, hproto]
            dsimp only [makeIter, goWith, parentRec]
            rw [getPrototype_nil_rec]
          | vlist l =>
            have hl : l = [] := by
              have hx : l.isEmpty = true := by simpa [truthy] using htr
              exact List.isEmpty_iff.mp hx
            subst hl
            refine ⟨rpop (rupdate prot p.fields) "prototype", ?_⟩
            rw [getPrototype_succ, hproto]
            dsimp only [makeIter, goWith]
          | vtup l =>
            have hl : l = [] := by
              have hx : l.isEmpty = true := by simpa [truthy] using htr
              exact List.isEmpty_iff.mp hx
            subst hl
            refine ⟨rpop (rupdate prot p.fields) "prototype", ?_⟩
            rw [getPrototype_succ, hproto]
            dsimp only [makeIter, goWith]

/-- C9 (amended): on a registry with no empty-string entry, resolving any
named entry that passes validation terminates (it succeeds with one more
unit of fuel than validation used) and the result has no `prototype`
key. -/
theorem C9_validated_entry_resolves (reg : Registry) (name : String)
    (p : PRecord) (fuel : Nat) (vis2 : List Nat)
    (hreg : regGet? reg "" = none)
    (hent : regGet? reg name = some p)
    (hval : validate fuel (some name) p reg [] = Except.ok vis2) :
    ∃ r, getPrototype (fuel+1) p.fields [] reg = some r ∧
      rget? r "prototype" = none := by
  obtain ⟨r, hr⟩ := validate_implies_resolvable hreg fuel _ _ _ _ hval []
  exact ⟨r, hr, getPrototype_no_prototype_key hr⟩

/-- Concrete two-entry registry for the C9 witness. -/
def c9wA : PRecord := ⟨0, [("x", Val.vint 1)]⟩

def c9wB : PRecord := ⟨1, [("prototype", Val.vstr "A"), ("y", Val.vint 2)]⟩

def c9wReg : Registry := [("A", c9wA), ("B", c9wB)]

/-- C9 witness: the amended theorem applied to a concrete validated
registry. -/
theorem C9_validated_entry_resolves_witness :
    ∃ r, getPrototype 6 c9wB.fields [] c9wReg = some r ∧
      rget? r "prototype" = none :=
  C9_validated_entry_resolves c9wReg "B" c9wB 5 [1, 0] rfl rfl rfl

/-! ### Claims C3, C10, C7: extraction coupling bug and orchestration -/

/-- Concrete external configuration used by the concrete evaluations:
placeholder key `"obj"`, default home `None`, default typeclass `"tc"`, an
identity `dbid_to_obj`, and producers that return `25`. -/
def cfg0 : Config :=
  ⟨Val.vstr "obj", Val.vnone, Val.vstr "tc", fun v => v, fun _ => Val.vint 25⟩

/-- C3 (code bug): the `attrs` step tests the callability of the *tags*
value (`attributes = attrval() if callable(tagval) else attrval`).  With a
non-callable `tags` and a deferred `attrs`, the producer is left uninvoked
and extraction crashes with a `TypeError` when the raw callable is added to
a list; with a callable `tags` and a non-callable `attrs`, extraction
crashes calling the list.  The claim's independent-resolution behaviour
would succeed on both records. -/
theorem C3_attrs_coupled_to_tags :
    extract cfg0 [("tags", Val.vlist []), ("attrs", Val.vthunk 0)] =
        Except.error Err.typeError
      ∧ extract cfg0 [("tags", Val.vthunk 1), ("attrs", Val.vlist [])] =
          Except.error Err.typeError :=
  ⟨rfl, rfl⟩

/-- C10: the registry-only short circuit keys on the *presence* of the
`return_prototypes` keyword: for every value `v` — a false one included —
supplying the option makes `spawn` return the (copy of the) merged,
validated registry and build no creation instruction. -/
theorem C10_return_prototypes_presence (cfg : Config) (sources : List Registry)
    (pp : Registry) (v : Val) (protos : List PRecord) (fuel : Nat)
    (hval : validateAll (mergedReg sources pp) fuel (mergedReg sources pp) =
      Except.ok ()) :
    spawn cfg sources pp (some v) protos fuel =
      Except.ok (SpawnResult.registry (mergedReg sources pp)) := by
  simp [spawn, hval]

/-- Registry entry for the C10 witness. -/
def c10P : PRecord := ⟨0, [("k", Val.vint 1)]⟩

/-- Requested prototype for the C10 witness (it would spawn an object,
were the short circuit not taken). -/
def c10Req : PRecord := ⟨9, [("f", Val.vint 2)]⟩

/-- C10 witness: `return_prototypes` supplied with the value `False` still
short-circuits to the registry copy. -/
theorem C10_return_prototypes_presence_witness :
    spawn cfg0 [] [("A", c10P)] (some (Val.vbool false)) [c10Req] 5 =
      Except.ok (SpawnResult.registry (mergedReg [] [("A", c10P)])) :=
  C10_return_prototypes_presence cfg0 [] [("A", c10P)] (Val.vbool false)
    [c10Req] 5 rfl

/-- If the spawn loop succeeds, every requested prototype was processed
successfully (validated, resolved, extracted — or skipped as empty). -/
theorem spawnGo_ok_each {cfg : Config} {reg : Registry} {fuel : Nat} :
    ∀ (ps : List PRecord) acc log z,
      spawnGo cfg reg fuel ps acc log = Except.ok z →
      ∀ p ∈ ps, ∃ res, processOne cfg reg fuel p = Except.ok res := by
  intro ps
  induction ps with
  | nil =>
    intro acc log z h p hp
    simp at hp
  | cons q rest ih =>
    intro acc log z h p hp
    simp only [spawnGo] at h
    split at h
    · exact Except.noConfusion h
    · rename_i heq
      rcases List.mem_cons.mp hp with rfl | hp2
      · exact ⟨none, heq⟩
      · exact ih _ _ _ h p hp2
    · rename_i params lg heq
      rcases List.mem_cons.mp hp with rfl | hp2
      · exact ⟨some (params, lg), heq⟩
      · exact ih _ _ _ h p hp2

/-- C7: the spawn call is all-or-nothing.  (1) A validation failure of any
registry entry aborts the whole call with that error — no batch reaches the
store.  (2) Conversely, whenever the call does hand a batch to the store
(`SpawnResult.created`), the full registry validated successfully and every
requested prototype was validated, resolved and extracted successfully
before the hand-off. -/
theorem C7_all_or_nothing (cfg : Config) (sources : List Registry)
    (pp : Registry) (ret : Option Val) (protos : List PRecord) (fuel : Nat) :
    (∀ e, validateAll (mergedReg sources pp) fuel (mergedReg sources pp) =
        Except.error e →
      spawn cfg sources pp ret protos fuel = Except.error e)
    ∧ (∀ batch log,
        spawn cfg sources pp ret protos fuel =
          Except.ok (SpawnResult.created batch log) →
        validateAll (mergedReg sources pp) fuel (mergedReg sources pp) =
            Except.ok ()
          ∧ ∀ p ∈ protos, ∃ res,
              processOne cfg (mergedReg sources pp) fuel p = Except.ok res) := by
  constructor
  · intro e he
    simp [spawn, he]
  · intro batch log hsp
    simp only [spawn] at hsp
    split at hsp
    · exact Except.noConfusion hsp
    · rename_i u hval
      cases u
      refine ⟨hval, ?_⟩
      split at hsp
      · injection hsp with h1
        exact SpawnResult.noConfusion h1
      · split at hsp
        · exact Except.noConfusion hsp
        · rename_i b l hgo
          exact spawnGo_ok_each protos [] [] _ hgo

/-- Registry entry whose parent is missing, for the C7 witness. -/
def c7Bad : PRecord := ⟨0, [("prototype", Val.vstr "NOPE")]⟩

/-- Requested prototype for the C7 witness. -/
def c7Req : PRecord := ⟨1, [("health", Val.vthunk 0), ("key", Val.vstr "g")]⟩

/-- The creation instruction `c7Req` extracts to under `cfg0`. -/
def c7Params : ObjParams :=
  { dbKey := Val.vstr "g", dbLocation := Val.vnone, dbHome := Val.vnone,
    dbDestination := Val.vnone, dbTypeclassPath := Val.vstr "tc",
    permissionString := Val.vlist [], lockString := Val.vstr "",
    aliasString := Val.vstr "", nattributes := [],
    attributes := [Val.vtup [Val.vstr "health", Val.vint 25]],
    tags := Val.vlist [], execs := [Val.vstr ""] }

/-- C7 witness: with an invalid registry entry the whole call errors even
though the requested prototypes are fine; with a valid registry a created
batch implies every requested prototype processed successfully. -/
theorem C7_all_or_nothing_witness :
    spawn cfg0 [] [("B", c7Bad)] none [c7Req] 5 =
        Except.error (Err.notFound (some "B") (Val.vstr "NOPE"))
      ∧ ∀ p ∈ [c7Req], ∃ res, processOne cfg0 (mergedReg [] []) 5 p =
          Except.ok res :=
  ⟨(C7_all_or_nothing cfg0 [] [("B", c7Bad)] none [c7Req] 5).1 _ rfl,
   ((C7_all_or_nothing cfg0 [] [] none [c7Req] 5).2 [c7Params] [0]
      (by rfl)).2⟩

/-! ### Claim C4: reserved names and the persistent-attribute list -/

/-- C4 counterexample: a `typeclass`-named pair supplied through the
`attrs` field survives into the persistent-attribute list — the filter
removes only `_CREATE_OBJECT_KWARGS = ("key", "location", "home",
"destination")`, which does not contain `"typeclass"`. -/
theorem C4_typeclass_attr_counterexample :
    extract cfg0 [("attrs", Val.vlist [Val.vtup [Val.vstr "typeclass",
        Val.vint 1]])] =
      Except.ok
        ({ dbKey := Val.vstr "obj", dbLocation := Val.vnone,
           dbHome := Val.vnone, dbDestination := Val.vnone,
           dbTypeclassPath := Val.vstr "tc", permissionString := Val.vlist [],
           lockString := Val.vstr "", aliasString := Val.vstr "",
           nattributes := [],
           attributes := [Val.vtup [Val.vstr "typeclass", Val.vint 1]],
           tags := Val.vlist [], execs := [Val.vstr ""] }, []) :=
  rfl

/-- Every entry surviving `filterAttrs` comes from the input list and has a
first component that is none of the four reserved creation-kwarg names. -/
theorem filterAttrs_mem : ∀ {l r : List Val}, filterAttrs l = Except.ok r →
    ∀ t ∈ r, t ∈ l ∧ ∃ x, tup0 t = Except.ok x ∧ isReservedName x = false := by
  intro l
  induction l with
  | nil =>
    intro r h t ht
    simp only [filterAttrs] at h
    injection h with h1
    subst h1
    simp at ht
  | cons a rest ih =>
    intro r h t ht
    simp only [filterAttrs] at h
    split at h
    · exact Except.noConfusion h
    · rename_i x hx
      split at h
      · exact Except.noConfusion h
      · rename_i r2 hr2
        split at h
        · injection h with h1
          subst h1
          obtain ⟨htl, hres⟩ := ih hr2 t ht
          exact ⟨List.mem_cons_of_mem _ htl, hres⟩
        · rename_i hxres
          injection h with h1
          subst h1
          rcases List.mem_cons.mp ht with rfl | ht2
          · exact ⟨List.mem_cons_self _ _, x, hx, by simpa using hxres⟩
          · obtain ⟨htl, hres⟩ := ih hr2 t ht2
            exact ⟨List.mem_cons_of_mem _ htl, hres⟩

/-- Every simple attribute produced from the leftover fields is a
`(name, value)` tuple whose name is a key of the leftover record. -/
theorem extractSimple_mem {cfg : Config} : ∀ (l : Record) (t : Val),
    t ∈ (extractSimple cfg l).1 →
    ∃ k v, t = Val.vtup [Val.vstr k, v] ∧ k ∈ rkeys l := by
  intro l
  induction l with
  | nil =>
    intro t ht
    simp [extractSimple] at ht
  | cons a rest ih =>
    obtain ⟨k, v⟩ := a
    intro t ht
    simp only [extractSimple] at ht
    split at ht
    · obtain ⟨k2, v2, h1, h2⟩ := ih t ht
      exact ⟨k2, v2, h1, by simp [rkeys] at h2 ⊢; exact Or.inr h2⟩
    · rcases hv : resolveVal cfg v with ⟨v2, lv⟩
      rw [hv] at ht
      dsimp only at ht
      rcases List.mem_cons.mp ht with rfl | ht2
      · exact ⟨k, v2, rfl, by simp [rkeys]⟩
      · obtain ⟨k2, v3, h1, h2⟩ := ih t ht2
        exact ⟨k2, v3, h1, by simp [rkeys] at h2 ⊢; exact Or.inr h2⟩

/-- The record returned by a pop-and-resolve step is the record with the
popped key removed. -/
theorem popResolveWith_snd {res : Val → Val × List Nat} {d : Record}
    {k : String} {dv v2 : Val} {d2 : Record} {l : List Nat}
    (h : popResolveWith res d k dv = (v2, d2, l)) : d2 = rpop d k := by
  unfold popResolveWith at h
  rcases hp : popD d k dv with ⟨v, dd⟩
  rw [hp] at h
  dsimp only at h
  rcases hr : res v with ⟨vv, ll⟩
  rw [hr] at h
  dsimp only at h
  injection h with hA hB
  injection hB with hB1 hB2
  have hdd : dd = rpop d k := by
    unfold popD at hp
    injection hp with e1 e2
    exact e2.symm
  rw [← hB1]
  exact hdd

/-- `popD` destructured. -/
theorem popD_eq {d : Record} {k : String} {dv v : Val} {d2 : Record}
    (h : popD d k dv = (v, d2)) :
    v = (rget? d k).getD dv ∧ d2 = rpop d k := by
  unfold popD at h
  injection h with e1 e2
  refine ⟨?_, e2.symm⟩
  rw [← e1]
  cases rget? d k <;> rfl

/-- C4 (amended): for every successful extraction, (1) no surviving
persistent-attribute entry is named `key`, `location`, `home` or
`destination` (the four `_CREATE_OBJECT_KWARGS` names); and (2) a
`typeclass`-named entry can only come from the explicit `attrs` field — the
`typeclass` record field itself is consumed as identity before the leftover
fields are turned into attributes — so if `attrs` supplies no
`typeclass`-named tuple (and is an unresolved plain list, i.e. `tags` is
not deferred), the persistent-attribute list contains none.  A
`typeclass`-named tuple supplied via `attrs` is *not* filtered
(`C4_typeclass_attr_counterexample`). -/
theorem C4_reserved_attr_filtering (cfg : Config) (prot : Record)
    (params : ObjParams) (lg : List Nat)
    (hx : extract cfg prot = Except.ok (params, lg)) :
    (∀ t ∈ params.attributes,
        ∃ x, tup0 t = Except.ok x ∧ isReservedName x = false)
    ∧ ∀ l0, callable ((rget? prot "tags").getD (Val.vlist [])) = false →
        (rget? prot "attrs").getD (Val.vlist []) = Val.vlist l0 →
        (∀ t ∈ l0, ¬tup0 t = Except.ok (Val.vstr "typeclass")) →
        ∀ t ∈ params.attributes, ¬tup0 t = Except.ok (Val.vstr "typeclass") := by
  simp only [extract] at hx
  rcases h1 : popResolve cfg prot "key" cfg.defaultKey with ⟨dbK, p1, l1⟩
  rw [h1] at hx
  dsimp only at hx
  rcases h2 : popResolveDb cfg p1 "location" Val.vnone with ⟨dbL, p2, l2⟩
  rw [h2] at hx
  dsimp only at hx
  rcases h3 : popResolveDb cfg p2 "home" cfg.defaultHome with ⟨dbH, p3, l3⟩
  rw [h3] at hx
  dsimp only at hx
  rcases h4 : popResolveDb cfg p3 "destination" Val.vnone with ⟨dbD, p4, l4⟩
  rw [h4] at hx
  dsimp only at hx
  rcases h5 : popResolve cfg p4 "typeclass" cfg.defaultTypeclass with
    ⟨dbT, p5, l5⟩
  rw [h5] at hx
  dsimp only at hx
  rcases h6 : popResolve cfg p5 "permissions" (Val.vlist []) with ⟨perm, p6, l6⟩
  rw [h6] at hx
  dsimp only at hx
  rcases h7 : popResolve cfg p6 "locks" (Val.vstr "") with ⟨lockv, p7, l7⟩
  rw [h7] at hx
  dsimp only at hx
  rcases h8 : popResolve cfg p7 "aliases" (Val.vstr "") with ⟨aliasv, p8, l8⟩
  rw [h8] at hx
  dsimp only at hx
  rcases h9 : popD p8 "tags" (Val.vlist []) with ⟨tagval, p9⟩
  rw [h9] at hx
  dsimp only at hx
  rcases h10 : resolveVal cfg tagval with ⟨tagsv, l9⟩
  rw [h10] at hx
  dsimp only at hx
  rcases h11 : popD p9 "attrs" (Val.vlist []) with ⟨attrval, p10⟩
  rw [h11] at hx
  dsimp only at hx
  -- pop-chain bookkeeping, shared by all remaining branches
  have e1 : p1 = rpop prot "key" := popResolveWith_snd h1
  have e2 : p2 = rpop p1 "location" := popResolveWith_snd h2
  have e3 : p3 = rpop p2 "home" := popResolveWith_snd h3
  have e4 : p4 = rpop p3 "destination" := popResolveWith_snd h4
  have e5 : p5 = rpop p4 "typeclass" := popResolveWith_snd h5
  have e6 : p6 = rpop p5 "permissions" := popResolveWith_snd h6
  have e7 : p7 = rpop p6 "locks" := popResolveWith_snd h7
  have e8 : p8 = rpop p7 "aliases" := popResolveWith_snd h8
  have e9 : p9 = rpop p8 "tags" := (popD_eq h9).2
  have e10 : p10 = rpop p9 "attrs" := (popD_eq h11).2
  have etag : tagval = (rget? prot "tags").getD (Val.vlist []) := by
    rw [(popD_eq h9).1, e8, e7, e6, e5, e4, e3, e2, e1]
    rw [rget?_rpop_ne _ (by decide), rget?_rpop_ne _ (by decide),
      rget?_rpop_ne _ (by decide), rget?_rpop_ne _ (by decide),
      rget?_rpop_ne _ (by decide), rget?_rpop_ne _ (by decide),
      rget?_rpop_ne _ (by decide), rget?_rpop_ne _ (by decide)]
  have eattr : attrval = (rget? prot "attrs").getD (Val.vlist []) := by
    rw [(popD_eq h11).1, e9, e8, e7, e6, e5, e4, e3, e2, e1]
    rw [rget?_rpop_ne _ (by decide), rget?_rpop_ne _ (by decide),
      rget?_rpop_ne _ (by decide), rget?_rpop_ne _ (by decide),
      rget?_rpop_ne _ (by decide), rget?_rpop_ne _ (by decide),
      rget?_rpop_ne _ (by decide), rget?_rpop_ne _ (by decide),
      rget?_rpop_ne _ (by decide)]
  have hT10 : "typeclass" ∉ rkeys p10 := by
    have hstep : ∀ (d : Record) (k2 : String),
        "typeclass" ∉ rkeys d → "typeclass" ∉ rkeys (rpop d k2) :=
      fun d k2 hnd hc => hnd (rkeys_rpop_subset d k2 hc)
    rw [e10, e9, e8, e7, e6]
    refine hstep _ _ (hstep _ _ (hstep _ _ (hstep _ _ (hstep _ _ ?_))))
    rw [e5]
    exact not_mem_rkeys_rpop_self _ _
  -- the attrs step, faithful to the tags/attrs coupling of the source
  cases hcal : callable tagval with
  | false =>
    rw [hcal] at hx
    dsimp only at hx
    rcases h12 : popResolve cfg p10 "exec" (Val.vstr "") with ⟨exr, p11, l11⟩
    rw [h12] at hx
    dsimp only at hx
    rcases h13 : extractNdb cfg p11 with ⟨natts, ln⟩
    rw [h13] at hx
    dsimp only at hx
    rcases h14 : extractSimple cfg p11 with ⟨satts, ls⟩
    rw [h14] at hx
    dsimp only at hx
    have e11 : p11 = rpop p10 "exec" := popResolveWith_snd h12
    have hT11 : "typeclass" ∉ rkeys p11 := by
      rw [e11]
      exact fun hc => hT10 (rkeys_rpop_subset p10 "exec" hc)
    cases attrval with
    | vlist attrList =>
      dsimp only at hx
      split at hx
      · exact Except.noConfusion hx
      · rename_i fin hfin
        injection hx with hpl
        injection hpl with hp hl
        subst hp
        constructor
        · intro t ht
          dsimp only at ht
          obtain ⟨_, x, hx0, hxr⟩ := filterAttrs_mem hfin t ht
          exact ⟨x, hx0, hxr⟩
        · intro l0 htg hat hl0 t ht
          dsimp only at ht
          obtain ⟨htl, _⟩ := filterAttrs_mem hfin t ht
          have hal : attrList = l0 := by
            have := eattr
            rw [hat] at this
            injection this
          rcases List.mem_append.mp htl with hta | hts
          · exact hl0 t (hal ▸ hta)
          · have hsv : t ∈ (extractSimple cfg p11).1 := by
              rw [h14]
              exact hts
            obtain ⟨k2, v2, rfl, hk2⟩ := extractSimple_mem p11 t hsv
            intro hcontra
            simp only [tup0] at hcontra
            injection hcontra with hceq
            injection hceq with hks
            subst hks
            exact hT11 hk2
    | vstr s =>
      exact Except.noConfusion hx
    | vint n =>
      exact Except.noConfusion hx
    | vbool b =>
      exact Except.noConfusion hx
    | vnone =>
      exact Except.noConfusion hx
    | vtup lt =>
      exact Except.noConfusion hx
    | vthunk i =>
      exact Except.noConfusion hx
  | true =>
    rw [hcal] at hx
    dsimp only at hx
    cases attrval with
    | vthunk i =>
      dsimp only at hx
      rcases h12 : popResolve cfg p10 "exec" (Val.vstr "") with ⟨exr, p11, l11⟩
      rw [h12] at hx
      dsimp only at hx
      rcases h13 : extractNdb cfg p11 with ⟨natts, ln⟩
      rw [h13] at hx
      dsimp only at hx
      rcases h14 : extractSimple cfg p11 with ⟨satts, ls⟩
      rw [h14] at hx
      dsimp only at hx
      cases henv : cfg.env i with
      | vlist attrList =>
        rw [henv] at hx
        dsimp only at hx
        split at hx
        · exact Except.noConfusion hx
        · rename_i fin hfin
          injection hx with hpl
          injection hpl with hp hl
          subst hp
          constructor
          · intro t ht
            dsimp only at ht
            obtain ⟨_, x, hx0, hxr⟩ := filterAttrs_mem hfin t ht
            exact ⟨x, hx0, hxr⟩
          · intro l0 htg hat hl0 t ht
            rw [← etag] at htg
            rw [hcal] at htg
            exact Bool.noConfusion htg
      | vstr s =>
        rw [henv] at hx
        exact Except.noConfusion hx
      | vint n =>
        rw [henv] at hx
        exact Except.noConfusion hx
      | vbool b =>
        rw [henv] at hx
        exact Except.noConfusion hx
      | vnone =>
        rw [henv] at hx
        exact Except.noConfusion hx
      | vtup lt =>
        rw [henv] at hx
        exact Except.noConfusion hx
      | vthunk j =>
        rw [henv] at hx
        exact Except.noConfusion hx
    | vstr s =>
      exact Except.noConfusion hx
    | vint n =>
      exact Except.noConfusion hx
    | vbool b =>
      exact Except.noConfusion hx
    | vnone =>
      exact Except.noConfusion hx
    | vlist lt =>
      exact Except.noConfusion hx
    | vtup lt =>
      exact Except.noConfusion hx

/-- The spec's own example record: explicit `attrs` entry plus an ad-hoc
leftover field, with an identity field. -/
def c4wProt : Record :=
  [("bar", Val.vint 2),
   ("attrs", Val.vlist [Val.vtup [Val.vstr "foo", Val.vint 1]]),
   ("key", Val.vstr "x")]

/-- The creation instruction `c4wProt` extracts to under `cfg0`. -/
def c4wParams : ObjParams :=
  { dbKey := Val.vstr "x", dbLocation := Val.vnone, dbHome := Val.vnone,
    dbDestination := Val.vnone, dbTypeclassPath := Val.vstr "tc",
    permissionString := Val.vlist [], lockString := Val.vstr "",
    aliasString := Val.vstr "", nattributes := [],
    attributes := [Val.vtup [Val.vstr "foo", Val.vint 1],
                   Val.vtup [Val.vstr "bar", Val.vint 2]],
    tags := Val.vlist [], execs := [Val.vstr ""] }

/-- C4 witness: on the concrete extraction both amended guarantees hold for
the surviving `("bar", 2)` attribute entry. -/
theorem C4_reserved_attr_filtering_witness :
    (∃ x, tup0 (Val.vtup [Val.vstr "bar", Val.vint 2]) = Except.ok x ∧
        isReservedName x = false)
    ∧ ¬tup0 (Val.vtup [Val.vstr "bar", Val.vint 2]) =
        Except.ok (Val.vstr "typeclass") := by
  have H := C4_reserved_attr_filtering cfg0 c4wProt c4wParams [] (by rfl)
  have hmem : Val.vtup [Val.vstr "bar", Val.vint 2] ∈ c4wParams.attributes :=
    List.Mem.tail _ (List.Mem.head _)
  refine ⟨H.1 _ hmem, ?_⟩
  refine H.2 [Val.vtup [Val.vstr "foo", Val.vint 1]] rfl rfl ?_ _ hmem
  intro t2 ht2 hc
  rw [List.mem_singleton] at ht2
  subst ht2
  injection hc with h2
  injection h2 with h3
  exact absurd h3 (by decide)

/-! ### Claim C6: producer invocation counting -/

/-- Indicator: `1` when the value is the deferred producer with id `i`. -/
def thunkInd : Option Val → Nat → Nat
  | some (Val.vthunk j), i => if j = i then 1 else 0
  | _, _ => 0

/-- Number of fields of a record whose (top-level) value is producer `i`. -/
def countThunk : Record → Nat → Nat
  | [], _ => 0
  | (_, v) :: rest, i => thunkInd (some v) i + countThunk rest i

theorem thunkInd_zero_of_not_callable {v : Val} (h : callable v = false)
    (i : Nat) : thunkInd (some v) i = 0 := by
  cases v
  · rfl
  · rfl
  · rfl
  · rfl
  · rfl
  · rfl
  · simp [callable] at h

theorem count_single (j i : Nat) : ([j] : List Nat).count i =
    if j = i then 1 else 0 := by
  by_cases h : j = i <;> simp [List.count_cons, h]

/-- One resolution step logs exactly the invocation of the value itself
(when it is a producer). -/
theorem resolveVal_count (cfg : Config) (v : Val) (i : Nat) :
    ((resolveVal cfg v).2).count i = thunkInd (some v) i := by
  cases v
  · rfl
  · rfl
  · rfl
  · rfl
  · rfl
  · rfl
  · simp only [resolveVal, thunkInd]
    exact count_single _ _

/-- Same for dbref fields: `_handle_dbref` is applied to non-callables and
invokes nothing. -/
theorem resolveDbref_count (cfg : Config) (v : Val) (i : Nat) :
    ((resolveDbref cfg v).2).count i = thunkInd (some v) i := by
  cases v
  · rfl
  · rfl
  · rfl
  · rfl
  · rfl
  · rfl
  · simp only [resolveDbref, thunkInd]
    exact count_single _ _

/-- Popping a key from a unique-key record removes exactly its value's
producer occurrence. -/
theorem countThunk_rpop {d : Record} (hN : (rkeys d).Nodup) (k : String)
    (i : Nat) :
    countThunk (rpop d k) i + thunkInd (rget? d k) i = countThunk d i := by
  induction d with
  | nil => simp [rpop, rget?, countThunk, thunkInd]
  | cons hd tl ih =>
    obtain ⟨k1, v⟩ := hd
    simp only [rkeys, List.map_cons, List.nodup_cons] at hN
    by_cases hk : k1 = k
    · subst hk
      have hnone : rget? tl k1 = none :=
        rget?_eq_none_of_not_mem (by simpa [rkeys] using hN.1)
      simp [rpop, rget?, countThunk, rpop_eq_self_of_not_mem hnone]
      omega
    · have := ih hN.2
      simp [rpop, rget?, countThunk, hk]
      omega

/-- A pop-and-resolve step's invocation count plus what remains in the
record is bounded by what the record held, provided the default value of
the pop is not itself a producer. -/
theorem popResolveWith_count {res : Val → Val × List Nat} {d : Record}
    {k : String} {dv v2 : Val} {d2 : Record} {l : List Nat} {i : Nat}
    (h : popResolveWith res d k dv = (v2, d2, l))
    (hres : ∀ v, ((res v).2).count i = thunkInd (some v) i)
    (hN : (rkeys d).Nodup) (hdv : callable dv = false) :
    l.count i + countThunk d2 i ≤ countThunk d i := by
  unfold popResolveWith at h
  rcases hp : popD d k dv with ⟨v, dd⟩
  rw [hp] at h
  dsimp only at h
  rcases hr : res v with ⟨vv, ll⟩
  rw [hr] at h
  dsimp only at h
  injection h with hA hB
  injection hB with hB1 hB2
  subst hB1
  subst hB2
  obtain ⟨hv, hdd⟩ := popD_eq hp
  subst hdd
  have hlc : ll.count i = thunkInd (some v) i := by
    have hq := hres v
    rw [hr] at hq
    exact hq
  rw [hlc]
  have hcr := countThunk_rpop hN k i
  subst hv
  cases hg : rget? d k with
  | some w =>
    rw [hg] at hcr
    simp only [hg, Option.getD]
    omega
  | none =>
    rw [hg] at hcr
    simp only [hg, Option.getD]
    rw [thunkInd_zero_of_not_callable hdv]
    omega

/-- The popped value is a producer only where the record's field was one
(the defaults are plain lists and strings). -/
theorem thunkInd_getD_le (o : Option Val) (dv : Val)
    (hdv : callable dv = false) (i : Nat) :
    thunkInd (some (o.getD dv)) i ≤ thunkInd o i := by
  cases o with
  | some w => simp [Option.getD]
  | none =>
    simp only [Option.getD]
    rw [thunkInd_zero_of_not_callable hdv]
    exact Nat.le_refl 0

/-- The `ndb_`/plain attribute comprehensions jointly invoke each leftover
field's producer at most once. -/
theorem ndb_simple_count (cfg : Config) (i : Nat) : ∀ l : Record,
    ((extractNdb cfg l).2).count i + ((extractSimple cfg l).2).count i ≤
      countThunk l i := by
  intro l
  induction l with
  | nil => simp [extractNdb, extractSimple, countThunk]
  | cons hd tl ih =>
    obtain ⟨k, v⟩ := hd
    simp only [extractNdb, extractSimple, countThunk]
    rcases hv : resolveVal cfg v with ⟨v2, lv⟩
    have hlv : lv.count i = thunkInd (some v) i := by
      have hq := resolveVal_count cfg v i
      rw [hv] at hq
      exact hq
    by_cases hndb : isNdbName k = true
    · simp only [hndb, if_true, hv]
      simp only [List.count_append]
      omega
    · simp only [Bool.not_eq_true] at hndb
      simp only [hndb, Bool.false_eq_true, if_false, hv]
      simp only [List.count_append]
      omega

/-- One extraction invokes each producer id at most as often as it occurs
among the resolved record's field values — in particular, at most once per
id when the record embeds each producer once.  Requires the record to have
unique keys (it models a Python dict) and the external defaults (generated
key, default home, default typeclass) not to be producers themselves. -/
theorem extract_count {cfg : Config} {prot : Record} {params : ObjParams}
    {lg : List Nat}
    (hx : extract cfg prot = Except.ok (params, lg))
    (hN : (rkeys prot).Nodup)
    (hdk : callable cfg.defaultKey = false)
    (hdh : callable cfg.defaultHome = false)
    (hdt : callable cfg.defaultTypeclass = false) :
    ∀ i, lg.count i ≤ countThunk prot i := by
  intro i
  simp only [extract] at hx
  rcases h1 : popResolve cfg prot "key" cfg.defaultKey with ⟨dbK, p1, l1⟩
  rw [h1] at hx
  dsimp only at hx
  rcases h2 : popResolveDb cfg p1 "location" Val.vnone with ⟨dbL, p2, l2⟩
  rw [h2] at hx
  dsimp only at hx
  rcases h3 : popResolveDb cfg p2 "home" cfg.defaultHome with ⟨dbH, p3, l3⟩
  rw [h3] at hx
  dsimp only at hx
  rcases h4 : popResolveDb cfg p3 "destination" Val.vnone with ⟨dbD, p4, l4⟩
  rw [h4] at hx
  dsimp only at hx
  rcases h5 : popResolve cfg p4 "typeclass" cfg.defaultTypeclass with
    ⟨dbT, p5, l5⟩
  rw [h5] at hx
  dsimp only at hx
  rcases h6 : popResolve cfg p5 "permissions" (Val.vlist []) with ⟨perm, p6, l6⟩
  rw [h6] at hx
  dsimp only at hx
  rcases h7 : popResolve cfg p6 "locks" (Val.vstr "") with ⟨lockv, p7, l7⟩
  rw [h7] at hx
  dsimp only at hx
  rcases h8 : popResolve cfg p7 "aliases" (Val.vstr "") with ⟨aliasv, p8, l8⟩
  rw [h8] at hx
  dsimp only at hx
  rcases h9 : popD p8 "tags" (Val.vlist []) with ⟨tagval, p9⟩
  rw [h9] at hx
  dsimp only at hx
  rcases h10 : resolveVal cfg tagval with ⟨tagsv, l9⟩
  rw [h10] at hx
  dsimp only at hx
  rcases h11 : popD p9 "attrs" (Val.vlist []) with ⟨attrval, p10⟩
  rw [h11] at hx
  dsimp only at hx
  have e1 : p1 = rpop prot "key" := popResolveWith_snd h1
  have e2 : p2 = rpop p1 "location" := popResolveWith_snd h2
  have e3 : p3 = rpop p2 "home" := popResolveWith_snd h3
  have e4 : p4 = rpop p3 "destination" := popResolveWith_snd h4
  have e5 : p5 = rpop p4 "typeclass" := popResolveWith_snd h5
  have e6 : p6 = rpop p5 "permissions" := popResolveWith_snd h6
  have e7 : p7 = rpop p6 "locks" := popResolveWith_snd h7
  have e8 : p8 = rpop p7 "aliases" := popResolveWith_snd h8
  have e9 : p9 = rpop p8 "tags" := (popD_eq h9).2
  have e10 : p10 = rpop p9 "attrs" := (popD_eq h11).2
  have n1 : (rkeys p1).Nodup := by
    rw [e1]
    exact nodup_rkeys_rpop _ hN
  have n2 : (rkeys p2).Nodup := by
    rw [e2]
    exact nodup_rkeys_rpop _ n1
  have n3 : (rkeys p3).Nodup := by
    rw [e3]
    exact nodup_rkeys_rpop _ n2
  have n4 : (rkeys p4).Nodup := by
    rw [e4]
    exact nodup_rkeys_rpop _ n3
  have n5 : (rkeys p5).Nodup := by
    rw [e5]
    exact nodup_rkeys_rpop _ n4
  have n6 : (rkeys p6).Nodup := by
    rw [e6]
    exact nodup_rkeys_rpop _ n5
  have n7 : (rkeys p7).Nodup := by
    rw [e7]
    exact nodup_rkeys_rpop _ n6
  have n8 : (rkeys p8).Nodup := by
    rw [e8]
    exact nodup_rkeys_rpop _ n7
  have n9 : (rkeys p9).Nodup := by
    rw [e9]
    exact nodup_rkeys_rpop _ n8
  have n10 : (rkeys p10).Nodup := by
    rw [e10]
    exact nodup_rkeys_rpop _ n9
  have s1 : l1.count i + countThunk p1 i ≤ countThunk prot i :=
    popResolveWith_count h1 (fun v => resolveVal_count cfg v i) hN hdk
  have s2 : l2.count i + countThunk p2 i ≤ countThunk p1 i :=
    popResolveWith_count h2 (fun v => resolveDbref_count cfg v i) n1 rfl
  have s3 : l3.count i + countThunk p3 i ≤ countThunk p2 i :=
    popResolveWith_count h3 (fun v => resolveDbref_count cfg v i) n2 hdh
  have s4 : l4.count i + countThunk p4 i ≤ countThunk p3 i :=
    popResolveWith_count h4 (fun v => resolveDbref_count cfg v i) n3 rfl
  have s5 : l5.count i + countThunk p5 i ≤ countThunk p4 i :=
    popResolveWith_count h5 (fun v => resolveVal_count cfg v i) n4 hdt
  have s6 : l6.count i + countThunk p6 i ≤ countThunk p5 i :=
    popResolveWith_count h6 (fun v => resolveVal_count cfg v i) n5 rfl
  have s7 : l7.count i + countThunk p7 i ≤ countThunk p6 i :=
    popResolveWith_count h7 (fun v => resolveVal_count cfg v i) n6 rfl
  have s8 : l8.count i + countThunk p8 i ≤ countThunk p7 i :=
    popResolveWith_count h8 (fun v => resolveVal_count cfg v i) n7 rfl
  have hc9 : countThunk p9 i + thunkInd (rget? p8 "tags") i =
      countThunk p8 i := by
    rw [e9]
    exact countThunk_rpop n8 "tags" i
  have hl9 : l9.count i ≤ thunkInd (rget? p8 "tags") i := by
    have hq := resolveVal_count cfg tagval i
    rw [h10] at hq
    rw [hq, (popD_eq h9).1]
    exact thunkInd_getD_le (rget? p8 "tags") (Val.vlist []) rfl i
  have hc10 : countThunk p10 i + thunkInd (rget? p9 "attrs") i =
      countThunk p9 i := by
    rw [e10]
    exact countThunk_rpop n9 "attrs" i
  have hattr : thunkInd (some attrval) i ≤ thunkInd (rget? p9 "attrs") i := by
    rw [(popD_eq h11).1]
    exact thunkInd_getD_le (rget? p9 "attrs") (Val.vlist []) rfl i
  cases hcal : callable tagval with
  | false =>
    rw [hcal] at hx
    dsimp only at hx
    rcases h12 : popResolve cfg p10 "exec" (Val.vstr "") with ⟨exr, p11, l11⟩
    rw [h12] at hx
    dsimp only at hx
    rcases h13 : extractNdb cfg p11 with ⟨natts, ln⟩
    rw [h13] at hx
    dsimp only at hx
    rcases h14 : extractSimple cfg p11 with ⟨satts, ls⟩
    rw [h14] at hx
    dsimp only at hx
    have s11 : l11.count i + countThunk p11 i ≤ countThunk p10 i :=
      popResolveWith_count h12 (fun v => resolveVal_count cfg v i) n10 rfl
    have hns : ln.count i + ls.count i ≤ countThunk p11 i := by
      have hq := ndb_simple_count cfg i p11
      rw [h13, h14] at hq
      exact hq
    cases attrval with
    | vlist attrList =>
      dsimp only at hx
      split at hx
      · exact Except.noConfusion hx
      · injection hx with hpl
        injection hpl with hp hl
        rw [← hl]
        simp only [List.count_append, List.count_nil]
        omega
    | vstr s => exact Except.noConfusion hx
    | vint n => exact Except.noConfusion hx
    | vbool b => exact Except.noConfusion hx
    | vnone => exact Except.noConfusion hx
    | vtup lt => exact Except.noConfusion hx
    | vthunk j => exact Except.noConfusion hx
  | true =>
    rw [hcal] at hx
    dsimp only at hx
    cases attrval with
    | vthunk i0 =>
      dsimp only at hx
      rcases h12 : popResolve cfg p10 "exec" (Val.vstr "") with ⟨exr, p11, l11⟩
      rw [h12] at hx
      dsimp only at hx
      rcases h13 : extractNdb cfg p11 with ⟨natts, ln⟩
      rw [h13] at hx
      dsimp only at hx
      rcases h14 : extractSimple cfg p11 with ⟨satts, ls⟩
      rw [h14] at hx
      dsimp only at hx
      have s11 : l11.count i + countThunk p11 i ≤ countThunk p10 i :=
        popResolveWith_count h12 (fun v => resolveVal_count cfg v i) n10 rfl
      have hns : ln.count i + ls.count i ≤ countThunk p11 i := by
        have hq := ndb_simple_count cfg i p11
        rw [h13, h14] at hq
        exact hq
      have hla : ([i0] : List Nat).count i ≤
          thunkInd (rget? p9 "attrs") i := by
        have hq : ([i0] : List Nat).count i =
            thunkInd (some (Val.vthunk i0)) i := by
          rw [count_single]
          rfl
        rw [hq]
        exact hattr
      cases henv : cfg.env i0 with
      | vlist attrList =>
        rw [henv] at hx
        dsimp only at hx
        split at hx
        · exact Except.noConfusion hx
        · injection hx with hpl
          injection hpl with hp hl
          rw [← hl]
          simp only [List.count_append]
          omega
      | vstr s =>
        rw [henv] at hx
        exact Except.noConfusion hx
      | vint n =>
        rw [henv] at hx
        exact Except.noConfusion hx
      | vbool b =>
        rw [henv] at hx
        exact Except.noConfusion hx
      | vnone =>
        rw [henv] at hx
        exact Except.noConfusion hx
      | vtup lt =>
        rw [henv] at hx
        exact Except.noConfusion hx
      | vthunk j =>
        rw [henv] at hx
        exact Except.noConfusion hx
    | vstr s => exact Except.noConfusion hx
    | vint n => exact Except.noConfusion hx
    | vbool b => exact Except.noConfusion hx
    | vnone => exact Except.noConfusion hx
    | vlist lt => exact Except.noConfusion hx
    | vtup lt => exact Except.noConfusion hx

/-- C6: within one spawn call, (1) extraction of one requested prototype
invokes producer `i` at most as often as the resolved record embeds it —
in particular at most once when it is embedded once; and (2) requesting the
same prototype twice yields two independent processings: the call's
invocation log is the one prototype's log twice over, so a producer
embedded once is invoked exactly once per request (twice in total). -/
theorem C6_producer_invocations (cfg : Config) (prot : Record)
    (params : ObjParams) (lg : List Nat)
    (hN : (rkeys prot).Nodup)
    (hdk : callable cfg.defaultKey = false)
    (hdh : callable cfg.defaultHome = false)
    (hdt : callable cfg.defaultTypeclass = false)
    (hx : extract cfg prot = Except.ok (params, lg)) :
    (∀ i, lg.count i ≤ countThunk prot i)
    ∧ (∀ i, countThunk prot i ≤ 1 → lg.count i ≤ 1)
    ∧ ∀ (reg : Registry) (fuel : Nat) (p : PRecord) (params2 : ObjParams)
        (lg2 : List Nat),
        processOne cfg reg fuel p = Except.ok (some (params2, lg2)) →
        spawnGo cfg reg fuel [p, p] [] [] =
            Except.ok ([params2, params2], lg2 ++ lg2)
          ∧ ∀ i, (lg2 ++ lg2).count i = 2 * lg2.count i := by
  refine ⟨extract_count hx hN hdk hdh hdt, ?_, ?_⟩
  · intro i h1
    exact le_trans (extract_count hx hN hdk hdh hdt i) h1
  · intro reg fuel p params2 lg2 hproc
    constructor
    · simp [spawnGo, hproc]
    · intro i
      simp [List.count_append, Nat.two_mul]

/-- Requested prototype for the C6 witness: one embedded producer. -/
def c6P : PRecord := ⟨0, [("health", Val.vthunk 0), ("key", Val.vstr "g")]⟩

/-- The creation instruction `c6P` extracts to under `cfg0`. -/
def c6Params : ObjParams :=
  { dbKey := Val.vstr "g", dbLocation := Val.vnone, dbHome := Val.vnone,
    dbDestination := Val.vnone, dbTypeclassPath := Val.vstr "tc",
    permissionString := Val.vlist [], lockString := Val.vstr "",
    aliasString := Val.vstr "", nattributes := [],
    attributes := [Val.vtup [Val.vstr "health", Val.vint 25]],
    tags := Val.vlist [], execs := [Val.vstr ""] }

/-- C6 witness: the single embedded producer is invoked once by one
extraction, and spawning the prototype twice in one call logs it once per
request. -/
theorem C6_producer_invocations_witness :
    (([0] : List Nat).count 0 ≤ countThunk c6P.fields 0)
    ∧ spawnGo cfg0 [] 3 [c6P, c6P] [] [] =
        Except.ok ([c6Params, c6Params], [0] ++ [0]) :=
  ⟨(C6_producer_invocations cfg0 c6P.fields c6Params [0] (by decide)
      rfl rfl rfl (by rfl)).1 0,
   ((C6_producer_invocations cfg0 c6P.fields c6Params [0] (by decide)
      rfl rfl rfl (by rfl)).2.2 [] 3 c6P c6Params [0] (by rfl)).1⟩

end Spawner
